import Mathlib

set_option maxRecDepth 100000

/-!
Verification development for the wifiScanner repository core:
the scan-output parser (scanner.go: parseScanOutput, parseSecurity,
freqToChannel) and the session tracker (NetworkState, Sparkline, Session,
Update).

Modelling conventions: Go strings are List Char; Go int is Int (the only
place 64-bit width matters to the claims is strconv.Atoi clamping, which is
modelled); time.Time is Int, with time.Now() passed in as an explicit
parameter. The regular expressions of parseScanOutput are literal/character
class patterns; each is embedded as the equivalent deterministic scanning
function (leftmost match, greedy repetition, as Go regexp finds them).
sort.Slice is embedded as the Go standard library pdqsort
(sort/zsortfunc.go, Go 1.19 and later) over lists with positional swaps;
loops are expressed with explicit fuel that is always sufficient at the
call sites used here.
-/

/-! ## Character helpers -/

/-- Digit test, as in the regexp classes \d and [0-9]. -/
def isDigitCh (c : Char) : Bool := 48 ≤ c.toNat && c.toNat ≤ 57

/-- Character class [0-9a-fA-F:] of the BSSID pattern in parseScanOutput. -/
def isAddrCh (c : Char) : Bool :=
  isDigitCh c || (97 ≤ c.toNat && c.toNat ≤ 102) || (65 ≤ c.toNat && c.toNat ≤ 70) || c == ':'

/-- strings.ToUpper, restricted to ASCII letters. The parser applies it only
to characters matching [0-9a-fA-F:], on which this agrees exactly with Go. -/
def goUpper (c : Char) : Char :=
  if 97 ≤ c.toNat && c.toNat ≤ 122 then Char.ofNat (c.toNat - 32) else c

/-- Whitespace class of Go regexp \s, which is exactly [\t\n\f\r ]. -/
def reSpace (c : Char) : Bool :=
  c == ' ' || c == '\t' || c == '\n' || c == '\x0c' || c == '\r'

/-- Whitespace recognised by strings.TrimSpace (unicode.IsSpace), restricted
to the Latin-1 range. -/
def uniSpace (c : Char) : Bool :=
  c == ' ' || c == '\t' || c == '\n' || c == '\x0b' || c == '\x0c' || c == '\r' ||
  c == '\u0085' || c == ' '

/-- Space-or-tab class [ \t] used by the SSID pattern. -/
def spTab (c : Char) : Bool := c == ' ' || c == '\t'

/-- strings.TrimSpace: drop leading and trailing whitespace. -/
def trimSpaceGo (s : List Char) : List Char :=
  ((s.dropWhile uniSpace).reverse.dropWhile uniSpace).reverse

/-- Test whether the first argument is an initial run of the second. -/
def startsWithL : List Char → List Char → Bool
  | [], _ => true
  | _ :: _, [] => false
  | n :: ns, h :: hs => n == h && startsWithL ns hs

/-- strings.Contains: substring occurrence test. -/
def containsStr : List Char → List Char → Bool
  | [], needle => needle.isEmpty
  | h :: hs, needle => startsWithL needle (h :: hs) || containsStr hs needle

/-! ## Numeric extraction (regexp \d+ plus strconv.Atoi) -/

/-- strconv.Atoi of an optional minus sign followed by a digit run, with the
64-bit range clamping Atoi performs on overflow (the error is discarded by
the parser). -/
def atoiGo (neg : Bool) (ds : List Char) : Int :=
  let v : Nat := ds.foldl (fun a c => a * 10 + (c.toNat - 48)) 0
  let n : Int := if neg then -(v : Int) else (v : Int)
  if n < -(2 ^ 63) then -(2 ^ 63) else if 2 ^ 63 - 1 < n then 2 ^ 63 - 1 else n

/-- Match \s* then -?\d+ (or \d+ when allowNeg is false) at the head of the
input; skipWs selects whether the \s* part is present in the pattern.
Returns the sign and the digit run of the capture group. -/
def numAfter (skipWs allowNeg : Bool) (s : List Char) : Option (Bool × List Char) :=
  let rest := if skipWs then s.dropWhile reSpace else s
  match rest with
  | '-' :: r =>
    if allowNeg then
      let ds := r.takeWhile isDigitCh
      if ds.isEmpty then none else some (true, ds)
    else none
  | r =>
    let ds := r.takeWhile isDigitCh
    if ds.isEmpty then none else some (false, ds)

/-- Leftmost occurrence of the literal lit followed by an optional \s* and a
signed digit run: the shared shape of the signal, freq and channel
patterns of parseScanOutput. -/
def scanAfterLit (lit : List Char) (skipWs allowNeg : Bool) : List Char → Option (Bool × List Char)
  | [] => none
  | c :: rest =>
    if startsWithL lit (c :: rest) then
      match numAfter skipWs allowNeg ((c :: rest).drop lit.length) with
      | some r => some r
      | none => scanAfterLit lit skipWs allowNeg rest
    else scanAfterLit lit skipWs allowNeg rest

/-! ## Block splitting and field extraction -/

/-- Accumulating worker for splitBSS: walk the text tracking line starts;
at a line start where the literal "BSS " begins, close the current fragment
(the (?m)^ anchor holds at position 0 and after each newline, and the
position just after a consumed match is not a line start because the match
ends in a space). -/
def splitBSSAux : List Char → Bool → List Char → List (List Char)
  | 'B' :: 'S' :: 'S' :: ' ' :: rest, true, cur => cur.reverse :: splitBSSAux rest false []
  | c :: rest, _, cur => splitBSSAux rest (c == '\n') (c :: cur)
  | [], _, cur => [cur.reverse]

/-- regexp.MustCompile("(?m)^BSS ").Split(output, -1). -/
def splitBSS (s : List Char) : List (List Char) := splitBSSAux s true []

/-- Anchored match of ^([0-9a-fA-F:]{17}) at the start of a block. -/
def matchAddr (block : List Char) : Option (List Char) :=
  let h := block.take 17
  if h.length = 17 && h.all isAddrCh then some h else none

/-- Attempt the SSID pattern at one line start: [ \t]+ then "SSID:" then
[ \t]* then the captured rest of the line.  The [ \t]+ run is forced to be
maximal because the following literal starts with a non-blank character. -/
def ssidAtLine (s : List Char) : Option (List Char) :=
  let ws := s.takeWhile spTab
  let rest := s.drop ws.length
  if ws.isEmpty then none
  else if startsWithL ("SSID:".toList) rest then
    some ((( rest.drop 5).dropWhile spTab).takeWhile (fun c => !(c == '\n')))
  else none

/-- Worker for findSSID: try the line-anchored pattern at every line start,
leftmost first. -/
def findSSIDAux : List Char → Bool → Option (List Char)
  | [], _ => none
  | c :: rest, atLS =>
    if atLS then
      match ssidAtLine (c :: rest) with
      | some cap => some cap
      | none => findSSIDAux rest (c == '\n')
    else findSSIDAux rest (c == '\n')

/-- regexp.MustCompile("(?m)^[ \t]+SSID:[ \t]*(.*)$").FindStringSubmatch. -/
def findSSID (block : List Char) : Option (List Char) := findSSIDAux block true

/-! ## Channel and security classification (scanner.go) -/

/-- freqToChannel from scanner.go; Go integer division truncates toward
zero, hence Int.tdiv. -/
def freqToChannel (freq : Int) : Int :=
  if 2412 ≤ freq ∧ freq ≤ 2472 then (freq - 2407).tdiv 5
  else if freq = 2484 then 14
  else if 5180 ≤ freq ∧ freq ≤ 5825 then (freq - 5000).tdiv 5
  else if 5955 ≤ freq ∧ freq ≤ 7115 then (freq - 5950).tdiv 5
  else 0

/-- parseSecurity from scanner.go. -/
def parseSecurity (block : List Char) : List Char :=
  let hasRSN := containsStr block ("RSN:".toList)
  let hasWPA := containsStr block ("WPA:".toList)
  let hasSAE := containsStr block ("SAE".toList)
  if hasSAE then "WPA3".toList
  else if hasRSN && hasWPA then "WPA2/WPA".toList
  else if hasRSN then "WPA2".toList
  else if hasWPA then "WPA".toList
  else if containsStr block ("Privacy".toList) then "WEP".toList
  else "OPEN".toList

/-! ## The Network record and per-block parsing -/

/-- Network from scanner.go. -/
structure Network where
  BSSID : List Char
  SSID : List Char
  Signal : Int
  Frequency : Int
  Channel : Int
  Security : List Char
  LastSeen : Int
deriving DecidableEq, Repr

/-- Body of the per-block loop of parseScanOutput: skip whitespace-only
fragments, require the anchored BSSID match (otherwise the block is
dropped), then extract the remaining fields with their defaults. -/
def parseBlock (now : Int) (block : List Char) : Option Network :=
  if trimSpaceGo block = [] then none
  else
    match matchAddr block with
    | none => none
    | some m =>
      let bssid := m.map goUpper
      let ssid0 := match findSSID block with
        | some cap => trimSpaceGo cap
        | none => []
      let ssid := if ssid0 = [] then "<hidden>".toList else ssid0
      let signal := match scanAfterLit ("signal:".toList) true true block with
        | some (neg, ds) => atoiGo neg ds
        | none => 0
      let freq := match scanAfterLit ("freq:".toList) true false block with
        | some (_, ds) => atoiGo false ds
        | none => 0
      let channel := match scanAfterLit ("DS Parameter set: channel ".toList) false false block with
        | some (_, ds) => atoiGo false ds
        | none => freqToChannel freq
      some ⟨bssid, ssid, signal, freq, channel, parseSecurity block, now⟩

/-! ## sort.Slice: the Go standard library pdqsort (sort/zsortfunc.go) -/

/-- Positional swap on a list; identity when an index is out of range
(never the case at the call sites reached by sort.Slice). -/
def swapL (l : List α) (i j : Nat) : List α :=
  match l.get? i, l.get? j with
  | some vi, some vj => (l.set i vj).set j vi
  | _, _ => l

/-- data.Less on two positions; false out of range (never reached). -/
def lessAt (lt : α → α → Bool) (l : List α) (i j : Nat) : Bool :=
  match l.get? i, l.get? j with
  | some x, some y => lt x y
  | _, _ => false

/-- Inner loop of insertionSort_func: sift position j down while it is less
than its left neighbour and j exceeds the base a. -/
def insInner (lt : α → α → Bool) : Nat → List α → Nat → List α
  | 0, l, _ => l
  | j + 1, l, a =>
    if a ≤ j && lessAt lt l (j + 1) j then insInner lt j (swapL l (j + 1) j) a else l

/-- Outer loop of insertionSort_func over i from a+1 to b-1. -/
def insOuter (lt : α → α → Bool) : Nat → List α → Nat → Nat → Nat → List α
  | 0, l, _, _, _ => l
  | fuel + 1, l, a, i, b =>
    if i < b then insOuter lt fuel (insInner lt i l a) a (i + 1) b else l

/-- insertionSort_func on data[a:b]. -/
def insSortRange (lt : α → α → Bool) (l : List α) (a b : Nat) : List α :=
  insOuter lt (b - a) l a (a + 1) b

/-- siftDown_func. -/
def siftDownF (lt : α → α → Bool) : Nat → List α → Nat → Nat → Nat → List α
  | 0, l, _, _, _ => l
  | fuel + 1, l, root, hi, first =>
    let child := 2 * root + 1
    if hi ≤ child then l
    else
      let child := if child + 1 < hi && lessAt lt l (first + child) (first + child + 1)
        then child + 1 else child
      if !(lessAt lt l (first + root) (first + child)) then l
      else siftDownF lt fuel (swapL l (first + root) (first + child)) child hi first

/-- Heap construction loop of heapSort_func: i from (hi-1)/2 down to 0. -/
def heapBuild (lt : α → α → Bool) : Nat → List α → Nat → Nat → List α
  | 0, l, _, _ => l
  | i + 1, l, hi, first => heapBuild lt i (siftDownF lt hi l i hi first) hi first

/-- Pop loop of heapSort_func: i from hi-1 down to 0. -/
def heapPop (lt : α → α → Bool) : Nat → List α → Nat → List α
  | 0, l, _ => l
  | i + 1, l, first =>
    heapPop lt i (siftDownF lt (i + 1) (swapL l first (first + i)) 0 i first) first

/-- heapSort_func on data[a:b]. -/
def heapSortRange (lt : α → α → Bool) (l : List α) (a b : Nat) : List α :=
  let hi := b - a
  heapPop lt hi (heapBuild lt ((hi - 1) / 2 + 1) l hi a) a

/-- reverseRange_func. -/
def revAux : Nat → List α → Nat → Nat → List α
  | 0, l, _, _ => l
  | fuel + 1, l, i, j => if i < j then revAux fuel (swapL l i j) (i + 1) (j - 1) else l

/-- reverseRange_func on data[a:b]. -/
def reverseRangeF (l : List α) (a b : Nat) : List α := revAux (b - a) l a (b - 1)

/-- Advance loop of partialInsertionSort_func: move i right while the pair
(i-1, i) is in order. -/
def advanceSorted (lt : α → α → Bool) : Nat → List α → Nat → Nat → Nat
  | 0, _, i, _ => i
  | fuel + 1, l, i, b =>
    if i < b && !(lessAt lt l i (i - 1)) then advanceSorted lt fuel l (i + 1) b else i

/-- Left shift loop of partialInsertionSort_func (j from i-1 down to 1). -/
def shiftLeftLoop (lt : α → α → Bool) : Nat → List α → List α
  | 0, l => l
  | j + 1, l => if lessAt lt l (j + 1) j then shiftLeftLoop lt j (swapL l (j + 1) j) else l

/-- Right shift loop of partialInsertionSort_func (j from i+1 up to b-1). -/
def shiftRightLoop (lt : α → α → Bool) : Nat → List α → Nat → Nat → List α
  | 0, l, _, _ => l
  | fuel + 1, l, j, b =>
    if j < b && lessAt lt l j (j - 1) then shiftRightLoop lt fuel (swapL l j (j - 1)) (j + 1) b
    else l

/-- Step loop of partialInsertionSort_func, at most maxSteps = 5 rounds. -/
def partialInsAux (lt : α → α → Bool) : Nat → List α → Nat → Nat → Nat → List α × Bool
  | 0, l, _, _, _ => (l, false)
  | steps + 1, l, i, a, b =>
    let i := advanceSorted lt b l i b
    if i = b then (l, true)
    else if b - a < 50 then (l, false)
    else
      let l := swapL l i (i - 1)
      let l := if 2 ≤ i - a then shiftLeftLoop lt (i - 1) l else l
      let l := if 2 ≤ b - i then shiftRightLoop lt b l (i + 1) b else l
      partialInsAux lt steps l i a b

/-- partialInsertionSort_func; the Bool reports whether data[a:b] ended up
sorted. -/
def partialInsSortF (lt : α → α → Bool) (l : List α) (a b : Nat) : List α × Bool :=
  partialInsAux lt 5 l (a + 1) a b

/-- Advance loop of partition_func: i right while data[i] < pivot value. -/
def partAdvI (lt : α → α → Bool) : Nat → List α → Nat → Nat → Nat → Nat
  | 0, _, i, _, _ => i
  | fuel + 1, l, i, j, a =>
    if i ≤ j && lessAt lt l i a then partAdvI lt fuel l (i + 1) j a else i

/-- Advance loop of partition_func: j left while data[j] ≥ pivot value. -/
def partAdvJ (lt : α → α → Bool) : Nat → List α → Nat → Nat → Nat → Nat
  | 0, _, _, j, _ => j
  | fuel + 1, l, i, j, a =>
    if i ≤ j && !(lessAt lt l j a) then partAdvJ lt fuel l i (j - 1) a else j

/-- Main exchange loop of partition_func. -/
def partsLoop (lt : α → α → Bool) : Nat → List α → Nat → Nat → Nat → List α × Nat
  | 0, l, _, j, _ => (l, j)
  | fuel + 1, l, i, j, a =>
    let i2 := partAdvI lt (j + 2) l i j a
    let j2 := partAdvJ lt (j + 2) l i2 j a
    if j2 < i2 then (l, j2)
    else partsLoop lt fuel (swapL l i2 j2) (i2 + 1) (j2 - 1) a

/-- partition_func: one quicksort partition of data[a:b] around the value
at index pivot; returns the data, the new pivot position, and the
alreadyPartitioned flag. -/
def partitionF (lt : α → α → Bool) (l : List α) (a b pivot : Nat) : List α × Nat × Bool :=
  let l := swapL l a pivot
  let i := a + 1
  let j := b - 1
  let i2 := partAdvI lt (j + 2) l i j a
  let j2 := partAdvJ lt (j + 2) l i2 j a
  if j2 < i2 then (swapL l j2 a, j2, true)
  else
    let l := swapL l i2 j2
    let r := partsLoop lt b l (i2 + 1) (j2 - 1) a
    (swapL r.1 r.2 a, r.2, false)

/-- Advance loop of partitionEqual_func: i right while data[i] equals the
pivot value (not above it). -/
def partEqAdvI (lt : α → α → Bool) : Nat → List α → Nat → Nat → Nat → Nat
  | 0, _, i, _, _ => i
  | fuel + 1, l, i, j, a =>
    if i ≤ j && !(lessAt lt l a i) then partEqAdvI lt fuel l (i + 1) j a else i

/-- Advance loop of partitionEqual_func: j left while data[j] is above the
pivot value. -/
def partEqAdvJ (lt : α → α → Bool) : Nat → List α → Nat → Nat → Nat → Nat
  | 0, _, _, j, _ => j
  | fuel + 1, l, i, j, a =>
    if i ≤ j && lessAt lt l a j then partEqAdvJ lt fuel l i (j - 1) a else j

/-- Exchange loop of partitionEqual_func. -/
def partEqLoop (lt : α → α → Bool) : Nat → List α → Nat → Nat → Nat → List α × Nat
  | 0, l, i, _, _ => (l, i)
  | fuel + 1, l, i, j, a =>
    let i2 := partEqAdvI lt (j + 2) l i j a
    let j2 := partEqAdvJ lt (j + 2) l i2 j a
    if j2 < i2 then (l, i2)
    else partEqLoop lt fuel (swapL l i2 j2) (i2 + 1) (j2 - 1) a

/-- partitionEqual_func: split data[a:b] into elements equal to and greater
than the value at pivot; returns the first index of the greater part. -/
def partitionEqualF (lt : α → α → Bool) (l : List α) (a b pivot : Nat) : List α × Nat :=
  let l := swapL l a pivot
  partEqLoop lt b l (a + 1) (b - 1) a

/-- Hint values of choosePivot_func. -/
inductive SortedHint where
  | increasing
  | decreasing
  | unknown
deriving DecidableEq, Repr

/-- order2_func: order two positions by the data, counting swaps. -/
def order2F (lt : α → α → Bool) (l : List α) (a b : Nat) (swaps : Nat) : Nat × Nat × Nat :=
  if lessAt lt l b a then (b, a, swaps + 1) else (a, b, swaps)

/-- median_func: index of the median of three positions, counting swaps. -/
def medianF (lt : α → α → Bool) (l : List α) (a b c : Nat) (swaps : Nat) : Nat × Nat :=
  let r1 := order2F lt l a b swaps
  let r2 := order2F lt l r1.2.1 c r1.2.2
  let r3 := order2F lt l r1.1 r2.1 r2.2.2
  (r3.2.1, r3.2.2)

/-- medianAdjacent_func. -/
def medianAdjF (lt : α → α → Bool) (l : List α) (a : Nat) (swaps : Nat) : Nat × Nat :=
  medianF lt l (a - 1) a (a + 1) swaps

/-- choosePivot_func: static pivot below length 8, median of three up to
length 49, Tukey ninther beyond; the swap count 0 or 12 yields the
increasing or decreasing hint. -/
def choosePivotF (lt : α → α → Bool) (l : List α) (a b : Nat) : Nat × SortedHint :=
  let len := b - a
  let i := a + len / 4 * 1
  let j := a + len / 4 * 2
  let k := a + len / 4 * 3
  let js : Nat × Nat :=
    if 8 ≤ len then
      if 50 ≤ len then
        let r1 := medianAdjF lt l i 0
        let r2 := medianAdjF lt l j r1.2
        let r3 := medianAdjF lt l k r2.2
        medianF lt l r1.1 r2.1 r3.1 r3.2
      else medianF lt l i j k 0
    else (j, 0)
  if js.2 = 0 then (js.1, SortedHint.increasing)
  else if js.2 = 12 then (js.1, SortedHint.decreasing)
  else (js.1, SortedHint.unknown)

/-- math/bits.Len: number of bits needed to represent n. -/
def bitsLen : Nat → Nat
  | 0 => 0
  | n + 1 => Nat.log2 (n + 1) + 1

/-- One step of the xorshift generator of sort.go, on uint64. -/
def xorshiftNext (r : Nat) : Nat :=
  let r := (r ^^^ (r <<< 13)) % 2 ^ 64
  let r := r ^^^ (r >>> 7)
  (r ^^^ (r <<< 17)) % 2 ^ 64

/-- One scatter step of breakPatterns_func. -/
def breakStep (l : List α) (len a idx r modulus : Nat) (i : Nat) : List α :=
  let o := r &&& (modulus - 1)
  let o := if len ≤ o then o - len else o
  swapL l (idx - 1 + i) (a + o)

/-- breakPatterns_func. -/
def breakPatternsF (l : List α) (a b : Nat) : List α :=
  let len := b - a
  if 8 ≤ len then
    let modulus := 2 ^ bitsLen len
    let idx := a + len / 4 * 2 - 1
    let r1 := xorshiftNext (len % 2 ^ 64)
    let l := breakStep l len a idx r1 modulus 0
    let r2 := xorshiftNext r1
    let l := breakStep l len a idx r2 modulus 1
    let r3 := xorshiftNext r2
    breakStep l len a idx r3 modulus 2
  else l

/-- Preprocessing phase of one pdqsort_func loop iteration: apply
breakPatterns when the previous partitioning was imbalanced (decrementing
limit), choose the pivot, reverse the range on a decreasing hint, and run
the partial insertion sort check when the data looks sorted.  Returns the
data, the remaining limit, the pivot index, and whether the range is
already sorted (the early return of the loop body). -/
def pdqPrep (lt : α → α → Bool) (l : List α) (a b limit : Nat) (wb wp : Bool) :
    List α × Nat × Nat × Bool :=
  let ll : List α × Nat := if !wb then (breakPatternsF l a b, limit - 1) else (l, limit)
  let ph := choosePivotF lt ll.1 a b
  let lph : List α × Nat × SortedHint :=
    if ph.2 = SortedHint.decreasing then
      (reverseRangeF ll.1 a b, (b - 1) - (ph.1 - a), SortedHint.increasing)
    else (ll.1, ph.1, ph.2)
  let ld : List α × Bool :=
    if wb && wp && (lph.2.2 = SortedHint.increasing) then partialInsSortF lt lph.1 a b
    else (lph.1, false)
  (ld.1, ll.2, lph.2.1, ld.2)

/-- pdqsort_func: the main loop, with the two loop-carried flags explicit
and fuel bounding the nesting depth (the subrange shrinks strictly at every
continuation, so fuel equal to the initial length plus one is enough). -/
def pdqLoop (lt : α → α → Bool) :
    Nat → List α → Nat → Nat → Nat → Bool → Bool → List α
  | 0, l, _, _, _, _, _ => l
  | fuel + 1, l, a, b, limit, wasBalanced, wasPartitioned =>
    let length := b - a
    if length ≤ 12 then insSortRange lt l a b
    else if limit = 0 then heapSortRange lt l a b
    else
      let p := pdqPrep lt l a b limit wasBalanced wasPartitioned
      let limit := p.2.1
      let pivot := p.2.2.1
      if p.2.2.2 then p.1
      else if 0 < a && !(lessAt lt p.1 (a - 1) pivot) then
        let lm := partitionEqualF lt p.1 a b pivot
        pdqLoop lt fuel lm.1 lm.2 b limit wasBalanced wasPartitioned
      else
        let lm := partitionF lt p.1 a b pivot
        let mid := lm.2.1
        let leftLen := mid - a
        let rightLen := b - mid
        let balanced := decide (length / 8 ≤ min leftLen rightLen)
        if leftLen < rightLen then
          let l2 := pdqLoop lt fuel lm.1 a mid limit true true
          pdqLoop lt fuel l2 (mid + 1) b limit balanced lm.2.2
        else
          let l2 := pdqLoop lt fuel lm.1 (mid + 1) b limit true true
          pdqLoop lt fuel l2 a mid limit balanced lm.2.2

/-- sort.Slice: pdqsort over the whole list with limit = bits.Len(length). -/
def goSortSlice (lt : α → α → Bool) (l : List α) : List α :=
  pdqLoop lt (l.length + 1) l 0 l.length (bitsLen l.length) true true

/-- Comparison closure passed to sort.Slice by parseScanOutput:
networks[i].Signal > networks[j].Signal. -/
def netLess (x y : Network) : Bool := decide (y.Signal < x.Signal)

/-- parseScanOutput from scanner.go: split on the BSS marker, parse each
block (dropping fragments without the anchored address match), then
sort.Slice by descending signal. -/
def parseScanOutput (now : Int) (output : List Char) : List Network :=
  goSortSlice netLess ((splitBSS output).filterMap (parseBlock now))

/-! ## Session tracker (NetworkState, Sparkline, Session, Update) -/

/-- maxHistory constant of the tracker. -/
def maxHistory : Nat := 10

/-- NetworkState from the tracker source. -/
structure NetworkState where
  BSSID : List Char
  FirstSeen : Int
  LastSeen : Int
  SignalHistory : List Int
  MinSignal : Int
  MaxSignal : Int
deriving DecidableEq, Repr

/-- sparkBlocks: the eight density glyphs, sparsest to densest. -/
def sparkBlocks : List Char := ['▁', '▂', '▃', '▄', '▅', '▆', '▇', '█']

/-- Two's-complement wrap-around of Go int64 arithmetic: the representative
of n modulo 2^64 inside [-2^63, 2^63). -/
def wrap64 (n : Int) : Int := (n + 2 ^ 63) % 2 ^ 64 - 2 ^ 63

/-- Loop body of Sparkline: map one sample by (sig+100)*7/80, where the
addition and multiplication wrap as Go int64 operations and the division
truncates toward zero, then clamp into 0..7 and index into sparkBlocks. -/
def sparkGlyph (sig : Int) : Char :=
  let idx0 := (wrap64 (wrap64 (sig + 100) * 7)).tdiv 80
  let idx1 := if idx0 < 0 then 0 else idx0
  let idx2 := if 7 < idx1 then 7 else idx1
  sparkBlocks.getD idx2.toNat ' '

/-- Sparkline from the tracker source. -/
def Sparkline (hist : List Int) : List Char :=
  if hist.isEmpty then []
  else hist.map sparkGlyph

/-- Session state: the address-to-NetworkState map, modelled as an
association list with unique keys (only lookup and set are performed). -/
def Session := List (List Char × NetworkState)

/-- Go map lookup. -/
def lookupS : Session → List Char → Option NetworkState
  | [], _ => none
  | (k, v) :: rest, a => if k = a then some v else lookupS rest a

/-- Go map key set/update. -/
def insertS : Session → List Char → NetworkState → Session
  | [], a, v => [(a, v)]
  | (k, w) :: rest, a, v =>
    if k = a then (k, v) :: rest else (k, w) :: insertS rest a v

/-- Mutation applied by Update to the (found or freshly created) state of
one incoming record: stamp LastSeen with now, widen the extrema against the
incoming signal by plain comparison, append the signal to the history and
trim the history from the front to maxHistory entries. -/
def stepState (now sig : Int) (st : NetworkState) : NetworkState :=
  let st1 := { st with LastSeen := now }
  let st2 := if sig < st1.MinSignal then { st1 with MinSignal := sig } else st1
  let st3 := if st2.MaxSignal < sig then { st2 with MaxSignal := sig } else st2
  let h1 := st3.SignalHistory ++ [sig]
  let h2 := if maxHistory < h1.length then h1.drop (h1.length - maxHistory) else h1
  { st3 with SignalHistory := h2 }

/-- Loop body of Update for a single incoming Network: look the address up;
on a miss create the state (FirstSeen = now, extrema = the incoming signal,
empty history) and record the address as newly discovered; in either case
apply stepState and store the result back in the map (the Go code mutates
the state through the pointer held by the map; writing the mutated state
back once is the same map). -/
def updateStep (now : Int) (acc : Session × List (List Char)) (net : Network) :
    Session × List (List Char) :=
  match lookupS acc.1 net.BSSID with
  | some st => (insertS acc.1 net.BSSID (stepState now net.Signal st), acc.2)
  | none =>
    let st : NetworkState :=
      { BSSID := net.BSSID, FirstSeen := now, LastSeen := 0
        SignalHistory := [], MinSignal := net.Signal, MaxSignal := net.Signal }
    (insertS acc.1 net.BSSID (stepState now net.Signal st), acc.2 ++ [net.BSSID])

/-- Update from the tracker source: fold the batch, returning the updated
map and the list of newly discovered addresses. -/
def Update (s : Session) (now : Int) (networks : List Network) :
    Session × List (List Char) :=
  networks.foldl (updateStep now) (s, [])

/-! ## Spec-side definitions (used to state the claims) -/

/-- Modelled from the spec: one step of collecting the addresses of a batch
not previously tracked, in order of first appearance. -/
def newStep (s : Session) (acc : List (List Char)) (net : Network) : List (List Char) :=
  if lookupS s net.BSSID = none ∧ net.BSSID ∉ acc then acc ++ [net.BSSID] else acc

/-- Modelled from the spec: the addresses of a batch not previously
tracked, listed in order of first appearance within the batch. -/
def newlyDiscovered (s : Session) (nets : List Network) : List (List Char) :=
  nets.foldl (newStep s) []

/-- Uppercase hexadecimal digit. -/
def isUpHex (c : Char) : Bool := isDigitCh c || (65 ≤ c.toNat && c.toNat ≤ 70)

/-- Modelled from the spec: canonical address form, six colon-separated
uppercase hex octet pairs. -/
def canonicalAddr (s : List Char) : Bool :=
  s.length = 17 &&
    (List.range 17).all fun i =>
      match s.get? i with
      | some c => if i % 3 = 2 then c == ':' else isUpHex c
      | none => false

/-- Modelled from the spec: the sparkline intensity level
clamp(round((sample + 100) * 7 / 80), 0, 7), with round-to-nearest over the
rationals. -/
def specLevel (s : Int) : Int := max 0 (min 7 (round (((s : ℚ) + 100) * 7 / 80)))

/-- Last n elements of a list. -/
def takeLast (n : Nat) (l : List α) : List α := l.drop (l.length - n)

/-- Invariant of one DeviceHistory, as the spec states it. -/
def InvNS (st : NetworkState) : Prop :=
  (∀ x ∈ st.SignalHistory, st.MinSignal ≤ x ∧ x ≤ st.MaxSignal) ∧
  st.SignalHistory.length ≤ maxHistory ∧ st.FirstSeen ≤ st.LastSeen


/-! ## Concrete inputs used by the concrete theorems -/

/-- Helper naming scheme for the thirteen addresses of the sort input. -/
def aa (two : String) : List Char := ("AA:AA:AA:AA:AA:" ++ two).toList

/-- Thirteen-block scan blob whose equal-signal blocks expose the tie
behaviour of sort.Slice (13 entries force the quicksort partition path of
pdqsort rather than plain insertion sort). -/
def c2blob : List Char :=
  ("BSS AA:AA:AA:AA:AA:00\n\tsignal: -50\n" ++
   "BSS AA:AA:AA:AA:AA:01\n\tsignal: -10\n" ++
   "BSS AA:AA:AA:AA:AA:02\n\tsignal: -10\n" ++
   "BSS AA:AA:AA:AA:AA:03\n\tsignal: -30\n" ++
   "BSS AA:AA:AA:AA:AA:04\n\tsignal: -10\n" ++
   "BSS AA:AA:AA:AA:AA:05\n\tsignal: -10\n" ++
   "BSS AA:AA:AA:AA:AA:06\n\tsignal: -30\n" ++
   "BSS AA:AA:AA:AA:AA:07\n\tsignal: -10\n" ++
   "BSS AA:AA:AA:AA:AA:08\n\tsignal: -10\n" ++
   "BSS AA:AA:AA:AA:AA:09\n\tsignal: -30\n" ++
   "BSS AA:AA:AA:AA:AA:10\n\tsignal: -10\n" ++
   "BSS AA:AA:AA:AA:AA:11\n\tsignal: -10\n" ++
   "BSS AA:AA:AA:AA:AA:12\n\tsignal: -90\n").toList

/-- Blob whose single block starts with 17 hex characters without colons:
it matches the loose [0-9a-fA-F:]-class pattern of the parser. -/
def c5blob : List Char := ("BSS 0123456789abcdef0\n\tsignal: -50\n").toList

/-- The record the parser produces for c5blob. -/
def c5rec : Network :=
  { BSSID := "0123456789ABCDEF0".toList, SSID := "<hidden>".toList, Signal := -50
    Frequency := 0, Channel := 0, Security := "OPEN".toList, LastSeen := 0 }

/-- Blob whose text before the first BSS marker itself starts with an
address-like prefix. -/
def c9blob : List Char :=
  ("aa:bb:cc:dd:ee:ff leading fragment\nBSS 11:22:33:44:55:66\n\tsignal: -40\n").toList

/-- Block containing both the RSN and the legacy WPA markers. -/
def secBlockW : List Char := ("\tRSN:\t * Version: 1\n\tWPA:\t * Version: 1\n").toList

/-- Block carrying a frequency but no explicit channel marker. -/
def chanBlockW : List Char := ("11:22:33:44:55:66\n\tfreq: 2437\n\tsignal: -52\n").toList

/-- The record the parser produces for chanBlockW. -/
def chanNetW : Network :=
  { BSSID := "11:22:33:44:55:66".toList, SSID := "<hidden>".toList, Signal := -52
    Frequency := 2437, Channel := 6, Security := "OPEN".toList, LastSeen := 0 }

/-- Uppercase-hex-or-colon test used to state the amended address claim. -/
def isUpAddrCh (c : Char) : Bool := isUpHex c || c == ':'

/-- Minimal Network used to feed the tracker in concrete runs. -/
def mkNet (addr : List Char) (sig : Int) : Network :=
  { BSSID := addr, SSID := [], Signal := sig, Frequency := 0, Channel := 0
    Security := [], LastSeen := 0 }

/-- One single-record Update call carrying one signal value. -/
def stepSig (addr : List Char) (m : Session) (sig : Int) : Session :=
  (Update m 0 [mkNet addr sig]).1

/-- Sequence of single-record Update calls for one address, from an empty
session. -/
def runSignals (addr : List Char) (sigs : List Int) : Session :=
  sigs.foldl (stepSig addr) []

/-- Demo address for the tracker witnesses. -/
def demoAddr : List Char := "AA:BB:CC:DD:EE:FF".toList

/-- Demo batch record for the tracker witnesses. -/
def demoNet : Network := mkNet demoAddr (-40)

/-- Demo tracked state for the tracker witnesses. -/
def demoState : NetworkState :=
  { BSSID := demoAddr, FirstSeen := 1, LastSeen := 2, SignalHistory := [-40]
    MinSignal := -40, MaxSignal := -40 }

/-- Demo session holding demoAddr. -/
def demoSession : Session := [(demoAddr, demoState)]

/-! ## Lemmas: permutation facts for the sort machinery -/

theorem cons_set_perm {t : List α} {m : Nat} {v x : α} (h : t.get? m = some v) :
    (v :: t.set m x).Perm (x :: t) := by
  induction t generalizing m with
  | nil => simp at h
  | cons y t ih =>
    cases m with
    | zero =>
      simp only [List.get?] at h
      cases h
      simpa [List.set] using List.Perm.swap x v t
    | succ m =>
      simp only [List.get?] at h
      have h1 : (v :: (y :: t).set (m + 1) x) = v :: y :: t.set m x := by simp [List.set]
      rw [h1]
      exact ((List.Perm.swap y v _).trans ((ih h).cons y)).trans (List.Perm.swap x y t)

theorem set_set_perm {l : List α} {i j : Nat} {vi vj : α}
    (hi : l.get? i = some vi) (hj : l.get? j = some vj) :
    ((l.set i vj).set j vi).Perm l := by
  induction l generalizing i j with
  | nil => simp at hi
  | cons x t ih =>
    cases i with
    | zero =>
      simp only [List.get?] at hi
      cases hi
      cases j with
      | zero =>
        simp only [List.get?] at hj
        cases hj
        simp [List.set]
      | succ j =>
        simp only [List.get?] at hj
        simpa [List.set] using cons_set_perm hj
    | succ i =>
      simp only [List.get?] at hi
      cases j with
      | zero =>
        simp only [List.get?] at hj
        cases hj
        simpa [List.set] using cons_set_perm hi
      | succ j =>
        simp only [List.get?] at hj
        simpa [List.set] using List.Perm.cons x (ih hi hj)

theorem swapL_perm (l : List α) (i j : Nat) : (swapL l i j).Perm l := by
  unfold swapL
  rcases hi : l.get? i with _ | vi <;> rcases hj : l.get? j with _ | vj <;>
    simp [hi, hj]
  exact set_set_perm hi hj

theorem insInner_perm (lt : α → α → Bool) :
    ∀ (j : Nat) (l : List α) (a : Nat), (insInner lt j l a).Perm l := by
  intro j
  induction j with
  | zero => intro l a; simp [insInner]
  | succ j ih =>
    intro l a
    rw [insInner]
    split
    · exact (ih _ a).trans (swapL_perm l (j + 1) j)
    · exact List.Perm.refl l

theorem insOuter_perm (lt : α → α → Bool) :
    ∀ (fuel : Nat) (l : List α) (a i b : Nat), (insOuter lt fuel l a i b).Perm l := by
  intro fuel
  induction fuel with
  | zero => intro l a i b; simp [insOuter]
  | succ fuel ih =>
    intro l a i b
    rw [insOuter]
    split
    · exact (ih _ a (i + 1) b).trans (insInner_perm lt i l a)
    · exact List.Perm.refl l

theorem insSortRange_perm (lt : α → α → Bool) (l : List α) (a b : Nat) :
    (insSortRange lt l a b).Perm l :=
  insOuter_perm lt (b - a) l a (a + 1) b

theorem siftDownF_perm (lt : α → α → Bool) :
    ∀ (fuel : Nat) (l : List α) (root hi first : Nat),
      (siftDownF lt fuel l root hi first).Perm l := by
  intro fuel
  induction fuel with
  | zero => intro l root hi first; simp [siftDownF]
  | succ fuel ih =>
    intro l root hi first
    rw [siftDownF]
    dsimp only
    split
    · exact List.Perm.refl l
    · split <;> split
      all_goals
        first
          | exact List.Perm.refl l
          | exact (ih _ _ hi first).trans (swapL_perm l _ _)

theorem heapBuild_perm (lt : α → α → Bool) :
    ∀ (i : Nat) (l : List α) (hi first : Nat), (heapBuild lt i l hi first).Perm l := by
  intro i
  induction i with
  | zero => intro l hi first; simp [heapBuild]
  | succ i ih =>
    intro l hi first
    rw [heapBuild]
    exact (ih _ hi first).trans (siftDownF_perm lt hi l i hi first)

theorem heapPop_perm (lt : α → α → Bool) :
    ∀ (i : Nat) (l : List α) (first : Nat), (heapPop lt i l first).Perm l := by
  intro i
  induction i with
  | zero => intro l first; simp [heapPop]
  | succ i ih =>
    intro l first
    rw [heapPop]
    exact ((ih _ first).trans (siftDownF_perm lt (i + 1) _ 0 i first)).trans
      (swapL_perm l first (first + i))

theorem heapSortRange_perm (lt : α → α → Bool) (l : List α) (a b : Nat) :
    (heapSortRange lt l a b).Perm l := by
  unfold heapSortRange
  exact (heapPop_perm lt (b - a) _ a).trans (heapBuild_perm lt _ l (b - a) a)

theorem revAux_perm :
    ∀ (fuel : Nat) (l : List α) (i j : Nat), (revAux fuel l i j).Perm l := by
  intro fuel
  induction fuel with
  | zero => intro l i j; simp [revAux]
  | succ fuel ih =>
    intro l i j
    rw [revAux]
    split
    · exact (ih _ (i + 1) (j - 1)).trans (swapL_perm l i j)
    · exact List.Perm.refl l

theorem reverseRangeF_perm (l : List α) (a b : Nat) : (reverseRangeF l a b).Perm l :=
  revAux_perm (b - a) l a (b - 1)

theorem shiftLeftLoop_perm (lt : α → α → Bool) :
    ∀ (j : Nat) (l : List α), (shiftLeftLoop lt j l).Perm l := by
  intro j
  induction j with
  | zero => intro l; simp [shiftLeftLoop]
  | succ j ih =>
    intro l
    rw [shiftLeftLoop]
    split
    · exact (ih _).trans (swapL_perm l (j + 1) j)
    · exact List.Perm.refl l

theorem shiftRightLoop_perm (lt : α → α → Bool) :
    ∀ (fuel : Nat) (l : List α) (j b : Nat), (shiftRightLoop lt fuel l j b).Perm l := by
  intro fuel
  induction fuel with
  | zero => intro l j b; simp [shiftRightLoop]
  | succ fuel ih =>
    intro l j b
    rw [shiftRightLoop]
    split
    · exact (ih _ (j + 1) b).trans (swapL_perm l j (j - 1))
    · exact List.Perm.refl l

theorem partialInsAux_perm (lt : α → α → Bool) :
    ∀ (steps : Nat) (l : List α) (i a b : Nat), (partialInsAux lt steps l i a b).1.Perm l := by
  intro steps
  induction steps with
  | zero => intro l i a b; simp [partialInsAux]
  | succ steps ih =>
    intro l i a b
    rw [partialInsAux]
    dsimp only
    split
    · exact List.Perm.refl l
    · split
      · exact List.Perm.refl l
      · refine (ih _ _ a b).trans ?_
        split
        · refine (shiftRightLoop_perm lt b _ _ b).trans ?_
          split
          · exact (shiftLeftLoop_perm lt _ _).trans (swapL_perm l _ _)
          · exact swapL_perm l _ _
        · split
          · exact (shiftLeftLoop_perm lt _ _).trans (swapL_perm l _ _)
          · exact swapL_perm l _ _

theorem partialInsSortF_perm (lt : α → α → Bool) (l : List α) (a b : Nat) :
    (partialInsSortF lt l a b).1.Perm l :=
  partialInsAux_perm lt 5 l (a + 1) a b

theorem partsLoop_perm (lt : α → α → Bool) :
    ∀ (fuel : Nat) (l : List α) (i j a : Nat), (partsLoop lt fuel l i j a).1.Perm l := by
  intro fuel
  induction fuel with
  | zero => intro l i j a; simp [partsLoop]
  | succ fuel ih =>
    intro l i j a
    rw [partsLoop]
    split
    · exact List.Perm.refl l
    · exact (ih _ _ _ a).trans (swapL_perm l _ _)

theorem partitionF_perm (lt : α → α → Bool) (l : List α) (a b pivot : Nat) :
    (partitionF lt l a b pivot).1.Perm l := by
  simp only [partitionF]
  split
  · exact (swapL_perm _ _ a).trans (swapL_perm l a pivot)
  · refine ((swapL_perm _ _ a).trans ?_)
    refine (partsLoop_perm lt b _ _ _ a).trans ?_
    exact (swapL_perm _ _ _).trans (swapL_perm l a pivot)

theorem partEqLoop_perm (lt : α → α → Bool) :
    ∀ (fuel : Nat) (l : List α) (i j a : Nat), (partEqLoop lt fuel l i j a).1.Perm l := by
  intro fuel
  induction fuel with
  | zero => intro l i j a; simp [partEqLoop]
  | succ fuel ih =>
    intro l i j a
    rw [partEqLoop]
    split
    · exact List.Perm.refl l
    · exact (ih _ _ _ a).trans (swapL_perm l _ _)

theorem partitionEqualF_perm (lt : α → α → Bool) (l : List α) (a b pivot : Nat) :
    (partitionEqualF lt l a b pivot).1.Perm l := by
  unfold partitionEqualF
  exact (partEqLoop_perm lt b _ (a + 1) (b - 1) a).trans (swapL_perm l a pivot)

theorem breakStep_perm (l : List α) (len a idx r modulus i : Nat) :
    (breakStep l len a idx r modulus i).Perm l := by
  unfold breakStep
  exact swapL_perm l _ _

theorem breakPatternsF_perm (l : List α) (a b : Nat) : (breakPatternsF l a b).Perm l := by
  simp only [breakPatternsF]
  split
  · exact ((breakStep_perm _ _ _ _ _ _ _).trans
      ((breakStep_perm _ _ _ _ _ _ _).trans (breakStep_perm _ _ _ _ _ _ _)))
  · exact List.Perm.refl l

theorem pdqPrep_perm (lt : α → α → Bool) (l : List α) (a b limit : Nat) (wb wp : Bool) :
    (pdqPrep lt l a b limit wb wp).1.Perm l := by
  unfold pdqPrep
  dsimp only
  have hll : (if !wb then (breakPatternsF l a b, limit - 1) else (l, limit)).1.Perm l := by
    split
    · exact breakPatternsF_perm l a b
    · exact List.Perm.refl l
  generalize hLL : (if !wb then (breakPatternsF l a b, limit - 1) else (l, limit)) = LL at hll ⊢
  have hlph :
      (if (choosePivotF lt LL.1 a b).2 = SortedHint.decreasing then
        (reverseRangeF LL.1 a b, (b - 1) - ((choosePivotF lt LL.1 a b).1 - a),
          SortedHint.increasing)
      else (LL.1, (choosePivotF lt LL.1 a b).1, (choosePivotF lt LL.1 a b).2)).1.Perm LL.1 := by
    split
    · exact reverseRangeF_perm LL.1 a b
    · exact List.Perm.refl _
  generalize hP : (if (choosePivotF lt LL.1 a b).2 = SortedHint.decreasing then
      (reverseRangeF LL.1 a b, (b - 1) - ((choosePivotF lt LL.1 a b).1 - a),
        SortedHint.increasing)
    else (LL.1, (choosePivotF lt LL.1 a b).1, (choosePivotF lt LL.1 a b).2)) = P at hlph ⊢
  have hld : (if wb && wp && decide (P.2.2 = SortedHint.increasing) then
      partialInsSortF lt P.1 a b else (P.1, false)).1.Perm P.1 := by
    split
    · exact partialInsSortF_perm lt P.1 a b
    · exact List.Perm.refl _
  exact (hld.trans hlph).trans hll

theorem pdqLoop_perm (lt : α → α → Bool) :
    ∀ (fuel : Nat) (l : List α) (a b limit : Nat) (wb wp : Bool),
      (pdqLoop lt fuel l a b limit wb wp).Perm l := by
  intro fuel
  induction fuel with
  | zero => intro l a b limit wb wp; rw [pdqLoop]
  | succ fuel ih =>
    intro l a b limit wb wp
    rw [pdqLoop]
    dsimp only
    split
    · exact insSortRange_perm lt l a b
    · split
      · exact heapSortRange_perm lt l a b
      · have base := pdqPrep_perm lt l a b limit wb wp
        split
        · exact base
        · split
          · exact (ih _ _ b _ wb wp).trans ((partitionEqualF_perm lt _ a b _).trans base)
          · split
            · exact (ih _ _ _ _ _ _).trans ((ih _ _ _ _ true true).trans
                ((partitionF_perm lt _ a b _).trans base))
            · exact (ih _ _ _ _ _ _).trans ((ih _ _ _ _ true true).trans
                ((partitionF_perm lt _ a b _).trans base))

theorem goSortSlice_perm (lt : α → α → Bool) (l : List α) : (goSortSlice lt l).Perm l :=
  pdqLoop_perm lt (l.length + 1) l 0 l.length (bitsLen l.length) true true

theorem mem_goSortSlice {lt : α → α → Bool} {l : List α} {x : α} :
    x ∈ goSortSlice lt l ↔ x ∈ l :=
  (goSortSlice_perm lt l).mem_iff

/-! ## Parser claims -/

/-- C3: parseSecurity assigns the label by first-match precedence: an SAE
marker yields WPA3 regardless of other markers; else both RSN and legacy
WPA markers yield WPA2/WPA; else only RSN yields WPA2; else only WPA yields
WPA; else a Privacy marker yields WEP; otherwise OPEN. -/
theorem parseSecurity_precedence (b : List Char) :
    (containsStr b ("SAE".toList) = true → parseSecurity b = "WPA3".toList) ∧
    (containsStr b ("SAE".toList) = false → containsStr b ("RSN:".toList) = true →
      containsStr b ("WPA:".toList) = true → parseSecurity b = "WPA2/WPA".toList) ∧
    (containsStr b ("SAE".toList) = false → containsStr b ("RSN:".toList) = true →
      containsStr b ("WPA:".toList) = false → parseSecurity b = "WPA2".toList) ∧
    (containsStr b ("SAE".toList) = false → containsStr b ("RSN:".toList) = false →
      containsStr b ("WPA:".toList) = true → parseSecurity b = "WPA".toList) ∧
    (containsStr b ("SAE".toList) = false → containsStr b ("RSN:".toList) = false →
      containsStr b ("WPA:".toList) = false → containsStr b ("Privacy".toList) = true →
      parseSecurity b = "WEP".toList) ∧
    (containsStr b ("SAE".toList) = false → containsStr b ("RSN:".toList) = false →
      containsStr b ("WPA:".toList) = false → containsStr b ("Privacy".toList) = false →
      parseSecurity b = "OPEN".toList) := by
  refine ⟨fun h1 => by simp only [parseSecurity]; simp_all,
    fun h1 h2 h3 => by simp only [parseSecurity]; simp_all,
    fun h1 h2 h3 => by simp only [parseSecurity]; simp_all,
    fun h1 h2 h3 => by simp only [parseSecurity]; simp_all,
    fun h1 h2 h3 h4 => by simp only [parseSecurity]; simp_all,
    fun h1 h2 h3 h4 => by simp only [parseSecurity]; simp_all⟩

/-- Witness for C3: a block holding both an RSN and a legacy WPA marker
classifies as WPA2/WPA. -/
theorem parseSecurity_precedence_witness :
    parseSecurity secBlockW = "WPA2/WPA".toList :=
  (parseSecurity_precedence secBlockW).2.1 (by decide) (by decide) (by decide)

/-- C4: the channel equals the explicit channel-marker value when the
marker is present, otherwise it is computed from the frequency by exactly
the documented table, with the listed example values. -/
theorem channel_derivation :
    (∀ (now : Int) (block : List Char) (n : Network) (p : Bool × List Char),
        parseBlock now block = some n →
        scanAfterLit ("DS Parameter set: channel ".toList) false false block = some p →
        n.Channel = atoiGo false p.2) ∧
    (∀ (now : Int) (block : List Char) (n : Network),
        parseBlock now block = some n →
        scanAfterLit ("DS Parameter set: channel ".toList) false false block = none →
        n.Channel = freqToChannel n.Frequency) ∧
    (∀ f : Int,
      (2412 ≤ f → f ≤ 2472 → freqToChannel f = (f - 2407).tdiv 5) ∧
      (f = 2484 → freqToChannel f = 14) ∧
      (5180 ≤ f → f ≤ 5825 → freqToChannel f = (f - 5000).tdiv 5) ∧
      (5955 ≤ f → f ≤ 7115 → freqToChannel f = (f - 5950).tdiv 5) ∧
      (¬(2412 ≤ f ∧ f ≤ 2472) → f ≠ 2484 → ¬(5180 ≤ f ∧ f ≤ 5825) →
        ¬(5955 ≤ f ∧ f ≤ 7115) → freqToChannel f = 0)) ∧
    freqToChannel 2437 = 6 ∧ freqToChannel 2484 = 14 ∧ freqToChannel 5500 = 100 ∧
    freqToChannel 5180 = 36 ∧ freqToChannel 9999 = 0 := by
  refine ⟨?_, ?_, ?_, by decide, by decide, by decide, by decide, by decide⟩
  · intro now block n p h hds
    simp only [parseBlock] at h
    split at h
    · exact absurd h (by simp)
    · split at h
      · exact absurd h (by simp)
      · rw [Option.some.injEq] at h
        subst h
        simp only [hds]
  · intro now block n h hds
    simp only [parseBlock] at h
    split at h
    · exact absurd h (by simp)
    · split at h
      · exact absurd h (by simp)
      · rw [Option.some.injEq] at h
        subst h
        simp only [hds]
  · intro f
    refine ⟨?_, ?_, ?_, ?_, ?_⟩ <;> intros <;> unfold freqToChannel <;>
      split_ifs <;> first | rfl | omega

/-- Witness for C4: a block without a channel marker takes its channel from
the frequency table, and a frequency in the 2.4 GHz range uses the
(freq-2407)/5 formula. -/
theorem channel_derivation_witness :
    chanNetW.Channel = freqToChannel chanNetW.Frequency ∧
    freqToChannel 2437 = (2437 - 2407 : Int).tdiv 5 :=
  ⟨channel_derivation.2.1 0 chanBlockW chanNetW (by decide) (by decide),
   (channel_derivation.2.2.1 2437).1 (by decide) (by decide)⟩

/-- Uppercasing a character of the class [0-9a-fA-F:] yields an uppercase
hex digit or the colon. -/
theorem addr_char_up {c : Char} (h : isAddrCh c = true) :
    isUpHex (goUpper c) = true ∨ goUpper c = ':' := by
  unfold isAddrCh isDigitCh at h
  simp only [Bool.or_eq_true, Bool.and_eq_true, decide_eq_true_eq, beq_iff_eq] at h
  rcases h with ((hd | hlf) | huf) | hc
  · left
    have hg : goUpper c = c := by
      unfold goUpper
      rw [if_neg (by simp only [Bool.and_eq_true, decide_eq_true_eq]; omega)]
    rw [hg]
    unfold isUpHex isDigitCh
    simp only [Bool.or_eq_true, Bool.and_eq_true, decide_eq_true_eq]
    omega
  · left
    have ht : (goUpper c).toNat = c.toNat - 32 := by
      unfold goUpper
      rw [if_pos (by simp only [Bool.and_eq_true, decide_eq_true_eq]; omega)]
      have hv : Nat.isValidChar (c.toNat - 32) := Or.inl (by omega)
      unfold Char.ofNat
      rw [dif_pos hv]
      rfl
    unfold isUpHex isDigitCh
    simp only [Bool.or_eq_true, Bool.and_eq_true, decide_eq_true_eq, ht]
    omega
  · left
    have hg : goUpper c = c := by
      unfold goUpper
      rw [if_neg (by simp only [Bool.and_eq_true, decide_eq_true_eq]; omega)]
    rw [hg]
    unfold isUpHex isDigitCh
    simp only [Bool.or_eq_true, Bool.and_eq_true, decide_eq_true_eq]
    omega
  · right
    rw [hc]
    decide

/-- A successfully parsed block yields the uppercased 17-character anchored
address match as its BSSID. -/
theorem parseBlock_bssid {now : Int} {block : List Char} {n : Network}
    (h : parseBlock now block = some n) :
    ∃ m, matchAddr block = some m ∧ n.BSSID = m.map goUpper := by
  simp only [parseBlock] at h
  split at h
  · exact absurd h (by simp)
  · split at h
    · exact absurd h (by simp)
    · rename_i m hm
      rw [Option.some.injEq] at h
      subst h
      exact ⟨m, hm, rfl⟩

/-- The anchored address match returns 17 characters of the address class. -/
theorem matchAddr_some {block m : List Char} (h : matchAddr block = some m) :
    m.length = 17 ∧ m.all isAddrCh = true := by
  simp only [matchAddr] at h
  split at h
  · rename_i hcond
    rw [Option.some.injEq] at h
    subst h
    simpa using hcond
  · exact absurd h (by simp)

/-- C5 (amended): every Network record in the parser output has a non-empty
address of exactly 17 characters, each an uppercase hex digit or a colon
(the code anchors on 17 characters of the class [0-9a-fA-F:], not on the
canonical six colon-separated pair shape); a block whose start does not
match this 17-character pattern is dropped entirely rather than defaulted. -/
theorem parseScanOutput_addresses (now : Int) (out : List Char) :
    (∀ n ∈ parseScanOutput now out,
      n.BSSID ≠ [] ∧ n.BSSID.length = 17 ∧ ∀ c ∈ n.BSSID, isUpHex c = true ∨ c = ':') ∧
    (∀ block, matchAddr block = none → parseBlock now block = none) := by
  constructor
  · intro n hn
    rw [parseScanOutput, mem_goSortSlice, List.mem_filterMap] at hn
    obtain ⟨block, _, hpb⟩ := hn
    obtain ⟨m, hm, hb⟩ := parseBlock_bssid hpb
    obtain ⟨hlen, hall⟩ := matchAddr_some hm
    rw [hb]
    refine ⟨?_, by simp [hlen], ?_⟩
    · intro hnil
      rw [List.map_eq_nil_iff] at hnil
      subst hnil
      simp at hlen
    · intro c hc
      rw [List.mem_map] at hc
      obtain ⟨c0, hc0, rfl⟩ := hc
      have hcc : isAddrCh c0 = true := by
        rw [List.all_eq_true] at hall
        exact hall c0 hc0
      exact addr_char_up hcc
  · intro block hm
    simp only [parseBlock]
    split
    · rfl
    · simp [hm]

/-- Witness for C5: the record parsed from c5blob satisfies the amended
address shape. -/
theorem parseScanOutput_addresses_witness :
    c5rec.BSSID ≠ [] ∧ c5rec.BSSID.length = 17 ∧
      ∀ c ∈ c5rec.BSSID, isUpHex c = true ∨ c = ':' :=
  (parseScanOutput_addresses 0 c5blob).1 c5rec (by decide)

/-- Counterexample for C5 as stated: the parser accepts a block starting
with 17 hex characters and no colons, producing a record whose address is
not in the canonical six colon-separated pair form. -/
theorem c5_noncanonical_address :
    (parseScanOutput 0 c5blob).map Network.BSSID = ["0123456789ABCDEF0".toList] ∧
    canonicalAddr ("0123456789ABCDEF0".toList) = false := by decide

/-- C9 (amended): the fragment preceding the first block marker is handled
like any block: when it does not parse (whitespace-only or no anchored
address match), the output is exactly the sorted records of the remaining
fragments. -/
theorem parseScanOutput_drops_unmatched_head (now : Int) (out frag : List Char)
    (rest : List (List Char)) (h : splitBSS out = frag :: rest)
    (hf : parseBlock now frag = none) :
    parseScanOutput now out = goSortSlice netLess (rest.filterMap (parseBlock now)) := by
  rw [parseScanOutput, h, List.filterMap_cons, hf]

/-- Witness for C9: a garbage head fragment yields no record and the output
equals the parse of the remaining fragment alone. -/
theorem parseScanOutput_drops_unmatched_head_witness :
    parseScanOutput 0 ("garbage\nBSS 11:22:33:44:55:66\n\tsignal: -40\n".toList) =
      goSortSlice netLess
        (["11:22:33:44:55:66\n\tsignal: -40\n".toList].filterMap (parseBlock 0)) :=
  parseScanOutput_drops_unmatched_head 0 _ ("garbage\n".toList)
    ["11:22:33:44:55:66\n\tsignal: -40\n".toList] (by decide) (by decide)

/-- Counterexample for C9 as stated: a pre-marker fragment that itself
starts with 17 address-class characters is parsed as a device block and
does yield a record. -/
theorem c9_head_fragment_yields_record :
    splitBSS c9blob =
      ["aa:bb:cc:dd:ee:ff leading fragment\n".toList,
        "11:22:33:44:55:66\n\tsignal: -40\n".toList] ∧
    (parseScanOutput 0 c9blob).map Network.BSSID =
      ["AA:BB:CC:DD:EE:FF".toList, "11:22:33:44:55:66".toList] := by decide

/-- C2 at the failing input: the thirteen parsed records enter the sort in
block order, and sort.Slice (pdqsort) returns them non-increasing by signal
but with equal-signal records reordered: the records of blocks 03 and 06
both carry signal -30, block 03 precedes block 06 in the input, yet the
output places 06 (and 09) before 03; the -10 group is likewise permuted. -/
theorem c2_sort_unstable_at_input :
    ((splitBSS c2blob).filterMap (parseBlock 0)).map (fun n => (n.BSSID, n.Signal)) =
      [(aa "00", -50), (aa "01", -10), (aa "02", -10), (aa "03", -30), (aa "04", -10),
        (aa "05", -10), (aa "06", -30), (aa "07", -10), (aa "08", -10), (aa "09", -30),
        (aa "10", -10), (aa "11", -10), (aa "12", -90)] ∧
    (parseScanOutput 0 c2blob).map (fun n => (n.BSSID, n.Signal)) =
      [(aa "08", -10), (aa "01", -10), (aa "02", -10), (aa "11", -10), (aa "04", -10),
        (aa "05", -10), (aa "10", -10), (aa "07", -10), (aa "06", -30), (aa "09", -30),
        (aa "03", -30), (aa "00", -50), (aa "12", -90)] ∧
    (((splitBSS c2blob).filterMap (parseBlock 0)).map Network.BSSID).indexOf (aa "03") <
      (((splitBSS c2blob).filterMap (parseBlock 0)).map Network.BSSID).indexOf (aa "06") ∧
    ((parseScanOutput 0 c2blob).map Network.BSSID).indexOf (aa "06") <
      ((parseScanOutput 0 c2blob).map Network.BSSID).indexOf (aa "03") := by
  refine ⟨by decide, by decide, by decide, by decide⟩

/-- The per-sample glyph of Sparkline, rewritten with the clamp as max/min:
the index is the wrapping int64 evaluation of (sample+100)*7/80 clamped
into 0..7. -/
theorem sparkGlyph_eq (s : Int) :
    sparkGlyph s =
      sparkBlocks.getD (max 0 (min 7 ((wrap64 (wrap64 (s + 100) * 7)).tdiv 80))).toNat ' ' := by
  unfold sparkGlyph
  dsimp only
  have hidx : (if 7 < (if (wrap64 (wrap64 (s + 100) * 7)).tdiv 80 < 0 then 0
          else (wrap64 (wrap64 (s + 100) * 7)).tdiv 80)
        then 7 else (if (wrap64 (wrap64 (s + 100) * 7)).tdiv 80 < 0 then 0
          else (wrap64 (wrap64 (s + 100) * 7)).tdiv 80)) =
      max 0 (min 7 ((wrap64 (wrap64 (s + 100) * 7)).tdiv 80)) := by
    split_ifs <;> omega
  rw [hidx]

/-- wrap64 is the identity on values already inside the int64 range. -/
theorem wrap64_eq_of_range {n : Int} (h1 : -(2 ^ 63) ≤ n) (h2 : n ≤ 2 ^ 63 - 1) :
    wrap64 n = n := by
  unfold wrap64
  rw [Int.emod_eq_of_lt (by omega) (by omega)]
  omega

/-- C8 (amended): the sparkline maps each retained sample s to the level
clamp(idx, 0, 7) where idx is (s+100)*7/80 evaluated with Go's wrapping
int64 addition and multiplication and truncating division, rendering one
glyph per sample from the 8 ordered density glyphs; whenever (s+100)*7
stays inside the int64 range (in particular on the whole dBm domain) the
level is exactly clamp(trunc((s+100)*7/80), 0, 7); an empty sample list
yields an empty result; a single sample of -100 maps to level 0 (sparsest
glyph) and -20 maps to level 7 (densest glyph), while the extreme sample
2^63-1 wraps negative and renders the sparsest glyph. -/
theorem sparkline_clamped_trunc :
    (∀ hist : List Int, Sparkline hist =
      hist.map (fun s =>
        sparkBlocks.getD (max 0 (min 7 ((wrap64 (wrap64 (s + 100) * 7)).tdiv 80))).toNat ' ')) ∧
    (∀ s : Int, -(2 ^ 63) ≤ (s + 100) * 7 → (s + 100) * 7 ≤ 2 ^ 63 - 1 →
      (wrap64 (wrap64 (s + 100) * 7)).tdiv 80 = ((s + 100) * 7).tdiv 80) ∧
    Sparkline [] = [] ∧ Sparkline [-100] = [sparkBlocks.getD 0 ' '] ∧
    Sparkline [-20] = [sparkBlocks.getD 7 ' '] ∧
    Sparkline [2 ^ 63 - 1] = [sparkBlocks.getD 0 ' '] := by
  refine ⟨?_, ?_, by decide, by decide, by decide, by decide⟩
  · intro hist
    unfold Sparkline
    cases hist with
    | nil => simp
    | cons x t =>
      simp only [List.isEmpty_cons, if_neg]
      exact List.map_congr_left (fun s _ => sparkGlyph_eq s)
  · intro s h1 h2
    have ha : wrap64 (s + 100) = s + 100 := by
      refine wrap64_eq_of_range (by nlinarith) (by nlinarith)
    rw [ha, wrap64_eq_of_range h1 h2]

/-- Witness for C8: at sample -45 the multiplication stays inside int64 and
the wrapped index computation coincides with the plain truncating
formula. -/
theorem sparkline_clamped_trunc_witness :
    (wrap64 (wrap64 ((-45 : Int) + 100) * 7)).tdiv 80 = (((-45 : Int) + 100) * 7).tdiv 80 :=
  sparkline_clamped_trunc.2.1 (-45) (by decide) (by decide)

/-- Counterexample for C8 as stated: at the sample -45 the real-valued
level (-45+100)*7/80 = 4.8125 rounds to 5, but the code truncates to 4 and
renders the level-4 glyph, not the level-5 glyph of the claimed formula. -/
theorem c8_round_vs_trunc :
    specLevel (-45) = 5 ∧ Sparkline [-45] = ['▅'] ∧ sparkBlocks.getD 5 ' ' = '▆' ∧
    Sparkline [-45] ≠ [sparkBlocks.getD (specLevel (-45)).toNat ' '] := by
  have h5 : specLevel (-45) = 5 := by
    unfold specLevel
    norm_num [round_eq]
  refine ⟨h5, by decide, by decide, ?_⟩
  rw [h5]
  decide

/-! ## Tracker claims -/

theorem lookupS_insertS_self (m : Session) (k : List Char) (v : NetworkState) :
    lookupS (insertS m k v) k = some v := by
  induction m with
  | nil => simp [insertS, lookupS]
  | cons p rest ih =>
    obtain ⟨k0, w⟩ := p
    by_cases h : k0 = k
    · simp [insertS, lookupS, h]
    · simp [insertS, lookupS, h, ih]

theorem lookupS_insertS_ne (m : Session) {k a : List Char} (v : NetworkState) (h : k ≠ a) :
    lookupS (insertS m k v) a = lookupS m a := by
  induction m with
  | nil => simp [insertS, lookupS, h]
  | cons p rest ih =>
    obtain ⟨k0, w⟩ := p
    by_cases h0 : k0 = k
    · subst h0
      simp [insertS, lookupS, h, ih]
    · simp [insertS, lookupS, h0, ih]

theorem stepState_fields (now sig : Int) (st : NetworkState) :
    (stepState now sig st).BSSID = st.BSSID ∧
    (stepState now sig st).FirstSeen = st.FirstSeen ∧
    (stepState now sig st).LastSeen = now := by
  unfold stepState
  dsimp only
  split_ifs <;> simp

theorem stepState_min_max (now sig : Int) (st : NetworkState) :
    (stepState now sig st).MinSignal ≤ st.MinSignal ∧
    (stepState now sig st).MinSignal ≤ sig ∧
    st.MaxSignal ≤ (stepState now sig st).MaxSignal ∧
    sig ≤ (stepState now sig st).MaxSignal := by
  unfold stepState
  dsimp only
  split_ifs <;> simp_all <;> omega

theorem stepState_hist (now sig : Int) (st : NetworkState) :
    (stepState now sig st).SignalHistory = takeLast maxHistory (st.SignalHistory ++ [sig]) := by
  unfold stepState takeLast
  dsimp only
  split_ifs with h1 h2 h3 h4 h5 h6 h7 <;> simp_all

/-- Every tracked state survives a batch with its identity fields intact
and its extrema only widening. -/
theorem updateFold_tracked (now : Int) :
    ∀ (nets : List Network) (acc : Session × List (List Char)) (k : List Char)
      (st : NetworkState), lookupS acc.1 k = some st →
      ∃ st', lookupS ((nets.foldl (updateStep now) acc).1) k = some st' ∧
        st'.BSSID = st.BSSID ∧ st'.FirstSeen = st.FirstSeen ∧
        st'.MinSignal ≤ st.MinSignal ∧ st.MaxSignal ≤ st'.MaxSignal := by
  intro nets
  induction nets with
  | nil => exact fun acc k st h => ⟨st, h, rfl, rfl, le_refl _, le_refl _⟩
  | cons net rest ih =>
    intro acc k st h
    rw [List.foldl_cons]
    by_cases hk : net.BSSID = k
    · subst hk
      have hstep : updateStep now acc net =
          (insertS acc.1 net.BSSID (stepState now net.Signal st), acc.2) := by
        simp only [updateStep, h]
      rw [hstep]
      obtain ⟨st', h1, h2, h3, h4, h5⟩ :=
        ih (insertS acc.1 net.BSSID (stepState now net.Signal st), acc.2) net.BSSID
          (stepState now net.Signal st) (lookupS_insertS_self _ _ _)
      have hf := stepState_fields now net.Signal st
      have hm := stepState_min_max now net.Signal st
      exact ⟨st', h1, h2.trans hf.1, h3.trans hf.2.1, le_trans h4 hm.1,
        le_trans hm.2.2.1 h5⟩
    · have hpres : lookupS (updateStep now acc net).1 k = some st := by
        simp only [updateStep]
        cases hl : lookupS acc.1 net.BSSID with
        | some st0 =>
          dsimp only
          rw [lookupS_insertS_ne _ _ hk]
          exact h
        | none =>
          dsimp only
          rw [lookupS_insertS_ne _ _ hk]
          exact h
      exact ih _ k st hpres

/-- C10: an update leaves the FirstSeen timestamp and the address field of
every already-tracked DeviceHistory unchanged; only LastSeen, the extrema
and the sample window may change. -/
theorem Update_frame (s : Session) (now : Int) (nets : List Network) (k : List Char)
    (st : NetworkState) (h : lookupS s k = some st) :
    ∃ st', lookupS (Update s now nets).1 k = some st' ∧
      st'.FirstSeen = st.FirstSeen ∧ st'.BSSID = st.BSSID := by
  obtain ⟨st', h1, h2, h3, _, _⟩ := updateFold_tracked now nets (s, []) k st h
  exact ⟨st', h1, h3, h2⟩

/-- Witness for C10 at a concrete tracked session. -/
theorem Update_frame_witness :
    ∃ st', lookupS (Update demoSession 7 [demoNet]).1 demoAddr = some st' ∧
      st'.FirstSeen = demoState.FirstSeen ∧ st'.BSSID = demoState.BSSID :=
  Update_frame demoSession 7 [demoNet] demoAddr demoState (by decide)

/-- The stepped state of a well-formed history is again well-formed when
the clock does not run backwards. -/
theorem stepState_inv {now sig : Int} {st : NetworkState}
    (h1 : InvNS st) (h2 : st.LastSeen ≤ now) :
    InvNS (stepState now sig st) ∧ (stepState now sig st).LastSeen ≤ now := by
  obtain ⟨hrange, hlen, hfl⟩ := h1
  have hf := stepState_fields now sig st
  have hm := stepState_min_max now sig st
  have hh := stepState_hist now sig st
  refine ⟨⟨?_, ?_, ?_⟩, le_of_eq hf.2.2⟩
  · intro x hx
    rw [hh] at hx
    unfold takeLast at hx
    have hx2 : x ∈ st.SignalHistory ++ [sig] := List.mem_of_mem_drop hx
    rcases List.mem_append.mp hx2 with hxa | hxb
    · obtain ⟨ha, hb⟩ := hrange x hxa
      exact ⟨le_trans hm.1 ha, le_trans hb hm.2.2.1⟩
    · rw [List.mem_singleton] at hxb
      subst hxb
      exact ⟨hm.2.1, hm.2.2.2⟩
  · rw [hh]
    unfold takeLast
    rw [List.length_drop]
    omega
  · rw [hf.2.1, hf.2.2]
    exact le_trans hfl h2

/-- The freshly created and immediately stepped state of a first sighting
is well-formed. -/
theorem stepState_fresh_inv (now sig : Int) (bssid : List Char) :
    InvNS (stepState now sig
      { BSSID := bssid, FirstSeen := now, LastSeen := 0, SignalHistory := []
        MinSignal := sig, MaxSignal := sig }) ∧
    (stepState now sig
      { BSSID := bssid, FirstSeen := now, LastSeen := 0, SignalHistory := []
        MinSignal := sig, MaxSignal := sig }).LastSeen ≤ now := by
  have hf := stepState_fields now sig
    { BSSID := bssid, FirstSeen := now, LastSeen := 0, SignalHistory := []
      MinSignal := sig, MaxSignal := sig }
  have hm := stepState_min_max now sig
    { BSSID := bssid, FirstSeen := now, LastSeen := 0, SignalHistory := []
      MinSignal := sig, MaxSignal := sig }
  have hh := stepState_hist now sig
    { BSSID := bssid, FirstSeen := now, LastSeen := 0, SignalHistory := []
      MinSignal := sig, MaxSignal := sig }
  refine ⟨⟨?_, ?_, ?_⟩, le_of_eq hf.2.2⟩
  · intro x hx
    rw [hh] at hx
    unfold takeLast at hx
    simp only [List.nil_append] at hx
    have hx2 : x ∈ [sig] := List.mem_of_mem_drop hx
    rw [List.mem_singleton] at hx2
    subst hx2
    exact ⟨hm.2.1, hm.2.2.2⟩
  · rw [hh]
    unfold takeLast
    rw [List.length_drop]
    omega
  · rw [hf.2.1, hf.2.2]

/-- One update step preserves well-formedness of every stored state. -/
theorem updateStep_SInv {now : Int} {acc : Session × List (List Char)} {net : Network}
    (h : ∀ k st, lookupS acc.1 k = some st → InvNS st ∧ st.LastSeen ≤ now) :
    ∀ k st, lookupS (updateStep now acc net).1 k = some st →
      InvNS st ∧ st.LastSeen ≤ now := by
  intro k st hst
  by_cases hk : net.BSSID = k
  · subst hk
    simp only [updateStep] at hst
    cases hl : lookupS acc.1 net.BSSID with
    | some st0 =>
      rw [hl] at hst
      dsimp only at hst
      rw [lookupS_insertS_self] at hst
      rw [Option.some.injEq] at hst
      subst hst
      obtain ⟨h1, h2⟩ := h net.BSSID st0 hl
      exact stepState_inv h1 h2
    | none =>
      rw [hl] at hst
      dsimp only at hst
      rw [lookupS_insertS_self] at hst
      rw [Option.some.injEq] at hst
      subst hst
      exact stepState_fresh_inv now net.Signal net.BSSID
  · have : lookupS acc.1 k = some st := by
      simp only [updateStep] at hst
      cases hl : lookupS acc.1 net.BSSID with
      | some st0 =>
        rw [hl] at hst
        dsimp only at hst
        rwa [lookupS_insertS_ne _ _ hk] at hst
      | none =>
        rw [hl] at hst
        dsimp only at hst
        rwa [lookupS_insertS_ne _ _ hk] at hst
    exact h k st this

/-- Folding a batch preserves well-formedness of every stored state. -/
theorem updateFold_SInv (now : Int) :
    ∀ (nets : List Network) (acc : Session × List (List Char)),
      (∀ k st, lookupS acc.1 k = some st → InvNS st ∧ st.LastSeen ≤ now) →
      ∀ k st, lookupS ((nets.foldl (updateStep now) acc).1) k = some st →
        InvNS st ∧ st.LastSeen ≤ now := by
  intro nets
  induction nets with
  | nil => exact fun acc h => h
  | cons net rest ih =>
    intro acc h
    rw [List.foldl_cons]
    exact ih _ (updateStep_SInv h)

/-- C6: provided every tracked DeviceHistory is well-formed and the clock
has not run backwards, after an Update every DeviceHistory again satisfies
minSignal ≤ each retained sample ≤ maxSignal, a history length of at most
10 and firstSeen ≤ lastSeen; moreover minSignal never increases and
maxSignal never decreases for addresses tracked before the call. -/
theorem Update_invariants (s : Session) (now : Int) (nets : List Network)
    (h : ∀ k st, lookupS s k = some st → InvNS st ∧ st.LastSeen ≤ now) :
    (∀ k st, lookupS (Update s now nets).1 k = some st → InvNS st) ∧
    (∀ k st st', lookupS s k = some st → lookupS (Update s now nets).1 k = some st' →
      st'.MinSignal ≤ st.MinSignal ∧ st.MaxSignal ≤ st'.MaxSignal) := by
  constructor
  · intro k st hk
    exact (updateFold_SInv now nets (s, []) h k st hk).1
  · intro k st st' h1 h2
    obtain ⟨st2, hl, _, _, h4, h5⟩ := updateFold_tracked now nets (s, []) k st h1
    unfold Update at h2
    rw [hl, Option.some.injEq] at h2
    subst h2
    exact ⟨h4, h5⟩

/-- Witness for C6 at a concrete well-formed session. -/
theorem Update_invariants_witness :
    (∀ k st, lookupS demoSession k = some st → InvNS st ∧ st.LastSeen ≤ 5) ∧
    (∀ k st, lookupS (Update demoSession 5 [demoNet]).1 k = some st → InvNS st) := by
  have hdemo : ∀ k st, lookupS demoSession k = some st → InvNS st ∧ st.LastSeen ≤ 5 := by
    intro k st h
    simp only [demoSession, lookupS] at h
    split at h
    · rw [Option.some.injEq] at h
      subst h
      refine ⟨?_, by decide⟩
      unfold InvNS
      decide
    · exact absurd h (by simp [lookupS])
  exact ⟨hdemo, (Update_invariants demoSession 5 [demoNet] hdemo).1⟩

/-- The newly-discovered accumulator of the fold equals the spec-side
collection, given that the map domain is the original domain extended by
the collected addresses. -/
theorem updateFold_new (now : Int) (s : Session) :
    ∀ (nets : List Network) (m : Session) (acc : List (List Char)),
      (∀ a, lookupS m a = none ↔ (lookupS s a = none ∧ a ∉ acc)) →
      (nets.foldl (updateStep now) (m, acc)).2 = nets.foldl (newStep s) acc := by
  intro nets
  induction nets with
  | nil => intro m acc h; rfl
  | cons net rest ih =>
    intro m acc h
    rw [List.foldl_cons, List.foldl_cons]
    cases hl : lookupS m net.BSSID with
    | some st0 =>
      have hcond : ¬(lookupS s net.BSSID = none ∧ net.BSSID ∉ acc) := by
        intro hc
        have := (h net.BSSID).mpr hc
        rw [hl] at this
        exact Option.noConfusion this
      have hstep : updateStep now (m, acc) net =
          (insertS m net.BSSID (stepState now net.Signal st0), acc) := by
        simp only [updateStep, hl]
      rw [hstep, newStep, if_neg hcond]
      apply ih
      intro a
      by_cases ha : net.BSSID = a
      · subst ha
        rw [lookupS_insertS_self]
        simp only [reduceCtorEq, false_iff]
        intro hc
        exact hcond hc
      · rw [lookupS_insertS_ne _ _ ha]
        exact h a
    | none =>
      have hcond : lookupS s net.BSSID = none ∧ net.BSSID ∉ acc := (h net.BSSID).mp hl
      have hstep : updateStep now (m, acc) net =
          (insertS m net.BSSID
            (stepState now net.Signal
              { BSSID := net.BSSID, FirstSeen := now, LastSeen := 0, SignalHistory := []
                MinSignal := net.Signal, MaxSignal := net.Signal }), acc ++ [net.BSSID]) := by
        simp only [updateStep, hl]
      rw [hstep, newStep, if_pos hcond]
      apply ih
      intro a
      by_cases ha : net.BSSID = a
      · subst ha
        rw [lookupS_insertS_self]
        simp
      · rw [lookupS_insertS_ne _ _ ha]
        rw [h a]
        simp only [List.mem_append, List.mem_singleton]
        constructor
        · rintro ⟨h1, h2⟩
          exact ⟨h1, by tauto⟩
        · rintro ⟨h1, h2⟩
          exact ⟨h1, fun hx => h2 (Or.inl hx)⟩

/-- Collected addresses were untracked at the start of the call. -/
theorem mem_newFold (s : Session) :
    ∀ (nets : List Network) (acc : List (List Char)) (a : List Char),
      a ∈ nets.foldl (newStep s) acc → a ∈ acc ∨ lookupS s a = none := by
  intro nets
  induction nets with
  | nil => exact fun acc a h => Or.inl h
  | cons net rest ih =>
    intro acc a h
    rw [List.foldl_cons] at h
    rcases ih _ a h with hmem | hnone
    · unfold newStep at hmem
      split at hmem
      · rw [List.mem_append, List.mem_singleton] at hmem
        rcases hmem with hx | hx
        · exact Or.inl hx
        · subst hx
          rename_i hc
          exact Or.inr hc.1
      · exact Or.inl hmem
    · exact Or.inr hnone

/-- C1: Update returns exactly the addresses with no prior DeviceHistory,
in order of first appearance within the batch; in particular an Update for
an already-tracked address never lists that address. -/
theorem Update_newly_discovered (s : Session) (now : Int) (nets : List Network) :
    (Update s now nets).2 = newlyDiscovered s nets ∧
    ∀ a, lookupS s a ≠ none → a ∉ (Update s now nets).2 := by
  have hmain : (Update s now nets).2 = newlyDiscovered s nets := by
    unfold Update newlyDiscovered
    exact updateFold_new now s nets s [] (by intro a; simp)
  refine ⟨hmain, ?_⟩
  intro a ha hmem
  rw [hmain] at hmem
  rcases mem_newFold s nets [] a hmem with hx | hx
  · exact absurd hx (List.not_mem_nil a)
  · exact ha hx

/-- Witness for C1: with one address already tracked, a batch of that
address and a fresh one reports only the fresh one, and the tracked address
is absent from the report. -/
theorem Update_newly_discovered_witness :
    (Update demoSession 5 [demoNet, mkNet ("00:11:22:33:44:55".toList) (-60)]).2 =
      newlyDiscovered demoSession [demoNet, mkNet ("00:11:22:33:44:55".toList) (-60)] ∧
    demoAddr ∉ (Update demoSession 5 [demoNet, mkNet ("00:11:22:33:44:55".toList) (-60)]).2 :=
  ⟨(Update_newly_discovered demoSession 5 _).1,
   (Update_newly_discovered demoSession 5 _).2 demoAddr (by decide)⟩

/-- Retaining the last n elements commutes with appending: trimming before
appending and trimming after give the same window. -/
theorem takeLast_append_takeLast (n : Nat) (a b : List Int) :
    takeLast n (takeLast n a ++ b) = takeLast n (a ++ b) := by
  unfold takeLast
  rcases le_or_lt a.length n with hle | hgt
  · rw [Nat.sub_eq_zero_of_le hle, List.drop_zero]
  · have hk : a.length - n ≤ a.length := Nat.sub_le _ _
    rw [← List.drop_append_of_le_length hk, List.drop_drop]
    simp only [List.length_drop, List.length_append]
    congr 1
    omega

/-- Folding single-signal updates extends the retained window: the final
history is the last maxHistory elements of the starting history followed by
all submitted signals. -/
theorem runSignals_hist (addr : List Char) :
    ∀ (sigs : List Int) (m : Session) (st : NetworkState),
      lookupS m addr = some st → st.SignalHistory.length ≤ maxHistory →
      ∃ st', lookupS (sigs.foldl (stepSig addr) m) addr = some st' ∧
        st'.SignalHistory = takeLast maxHistory (st.SignalHistory ++ sigs) := by
  intro sigs
  induction sigs with
  | nil =>
    intro m st h hlen
    refine ⟨st, h, ?_⟩
    unfold takeLast
    rw [List.append_nil, Nat.sub_eq_zero_of_le hlen, List.drop_zero]
  | cons x rest ih =>
    intro m st h hlen
    rw [List.foldl_cons]
    have hstep : stepSig addr m x = insertS m addr (stepState 0 x st) := by
      unfold stepSig Update
      rw [List.foldl_cons]
      simp only [List.foldl_nil, updateStep, mkNet]
      rw [h]
    rw [hstep]
    have hlen1 : (stepState 0 x st).SignalHistory.length ≤ maxHistory := by
      rw [stepState_hist]
      unfold takeLast
      rw [List.length_drop]
      omega
    obtain ⟨st', hl, hh⟩ := ih (insertS m addr (stepState 0 x st)) (stepState 0 x st)
      (lookupS_insertS_self _ _ _) hlen1
    refine ⟨st', hl, ?_⟩
    rw [hh, stepState_hist, takeLast_append_takeLast, List.append_assoc,
      List.singleton_append]

/-- C7: after more than maxHistory single-signal updates for one address
the retained SignalHistory is exactly the last maxHistory submitted values
in arrival order, of length exactly maxHistory. -/
theorem Update_history_window (addr : List Char) (sigs : List Int)
    (h : maxHistory < sigs.length) :
    ∃ st, lookupS (runSignals addr sigs) addr = some st ∧
      st.SignalHistory = sigs.drop (sigs.length - maxHistory) ∧
      st.SignalHistory.length = maxHistory := by
  cases sigs with
  | nil =>
    exact absurd h (by unfold maxHistory; simp)
  | cons x rest =>
    unfold runSignals
    rw [List.foldl_cons]
    have h0 : lookupS (stepSig addr [] x) addr =
        some (stepState 0 x
          { BSSID := addr, FirstSeen := 0, LastSeen := 0, SignalHistory := []
            MinSignal := x, MaxSignal := x }) := by
      have : stepSig addr [] x = insertS [] addr (stepState 0 x
          { BSSID := addr, FirstSeen := 0, LastSeen := 0, SignalHistory := []
            MinSignal := x, MaxSignal := x }) := by
        unfold stepSig Update
        rw [List.foldl_cons]
        simp only [List.foldl_nil, updateStep, mkNet, lookupS]
      rw [this]
      exact lookupS_insertS_self _ _ _
    have hlen1 : (stepState 0 x
        { BSSID := addr, FirstSeen := 0, LastSeen := 0, SignalHistory := []
          MinSignal := x, MaxSignal := x }).SignalHistory.length ≤ maxHistory := by
      rw [stepState_hist]
      unfold takeLast
      rw [List.length_drop]
      omega
    obtain ⟨st', hl, hh⟩ := runSignals_hist addr rest _ _ h0 hlen1
    have hfin : st'.SignalHistory = (x :: rest).drop ((x :: rest).length - maxHistory) := by
      rw [hh, stepState_hist, takeLast_append_takeLast]
      simp only [List.nil_append, List.singleton_append]
      rfl
    refine ⟨st', hl, hfin, ?_⟩
    rw [hfin, List.length_drop]
    rw [List.length_cons] at h ⊢
    omega

/-- Witness for C7: eleven sequential single-signal updates leave exactly
the last ten values. -/
theorem Update_history_window_witness :
    ∃ st, lookupS (runSignals demoAddr
        [-1, -2, -3, -4, -5, -6, -7, -8, -9, -10, -11]) demoAddr = some st ∧
      st.SignalHistory =
        ([-1, -2, -3, -4, -5, -6, -7, -8, -9, -10, -11] : List Int).drop
          (([-1, -2, -3, -4, -5, -6, -7, -8, -9, -10, -11] : List Int).length - maxHistory) ∧
      st.SignalHistory.length = maxHistory :=
  Update_history_window demoAddr [-1, -2, -3, -4, -5, -6, -7, -8, -9, -10, -11]
    (by unfold maxHistory; simp)
